import Mathlib

/-!
Verification of the EverMemBench data-generation pipeline.

This file gives a shallow embedding, in Lean 4, of the pure core of the
repository (response cleanup, batch orchestration, merge loops, and the
constraint validators from the five phase scripts), together with theorems
settling the specified properties.  Python strings are modelled as
`List Char` where character-level operations matter and as `String`
elsewhere; Python dicts with open key sets are modelled as structures with
`Option` fields (`none` = key absent) or as association lists with
Python-dict insertion semantics; code that can raise (direct `d[k]`
subscripts) is modelled in `Except String`.
-/

deriving instance DecidableEq for Except

namespace EverMemBench

/-! ## Python dict, string and date primitives -/

/-- Python `d[k] = v` on an insertion-ordered dict modelled as an
association list: update the first binding of `k` in place, otherwise
append a new binding at the end. -/
def dictInsert {κ α : Type} [DecidableEq κ] : List (κ × α) → κ → α → List (κ × α)
  | [], k, v => [(k, v)]
  | (k', v') :: rest, k, v =>
    if k' = k then (k, v) :: rest else (k', v') :: dictInsert rest k v

/-- Python `d.get(k)` / `k in d` lookup on the same dict model. -/
def dictLookup {κ α : Type} [DecidableEq κ] : List (κ × α) → κ → Option α
  | [], _ => none
  | (k', v) :: rest, k => if k = k' then some v else dictLookup rest k

/-- Insert into a sorted list of ids (ascending). -/
def insertSorted (i : Int) : List Int → List Int
  | [] => [i]
  | j :: rest => if i ≤ j then i :: j :: rest else j :: insertSorted i rest

/-- Python `sorted()` on a list of ids (structural insertion sort, so
that it reduces in the kernel). -/
def sortInts (l : List Int) : List Int :=
  l.foldr insertSorted []

/-- ASCII whitespace stripped by Python `str.strip()`. -/
def pyWhitespace (c : Char) : Bool :=
  c == ' ' || c == '\t' || c == '\n' || c == '\r' || c == '\x0B' || c == '\x0C'

/-- Python `s.strip()` on a character list. -/
def pyStrip (l : List Char) : List Char :=
  ((l.dropWhile pyWhitespace).reverse.dropWhile pyWhitespace).reverse

/-- Value of an ASCII digit character, `none` otherwise. -/
def charDigit (c : Char) : Option Nat :=
  if c.isDigit then some (c.toNat - 48) else none

/-- Gregorian leap-year test, as used by `datetime`. -/
def isLeapYear (y : Nat) : Bool :=
  y % 4 == 0 && (y % 100 != 0 || y % 400 == 0)

/-- Number of days of month `m` of year `y` (`datetime` calendar). -/
def daysInMonth (y m : Nat) : Nat :=
  if m = 2 then (if isLeapYear y then 29 else 28)
  else if m = 4 ∨ m = 6 ∨ m = 9 ∨ m = 11 then 30
  else 31

/-- Parse a 1- or 2-digit numeric field (the `%m` / `%d` tokens of
`strptime`, which consume at most two digits greedily), returning the
value and the remaining characters. -/
def parseTwoDigit : List Char → Option (Nat × List Char)
  | [] => none
  | c :: rest =>
    match charDigit c with
    | none => none
    | some v =>
      match rest with
      | [] => some (v, [])
      | e :: rest' =>
        match charDigit e with
        | some w => some (10 * v + w, rest')
        | none => some (v, rest)

/-- `datetime.strptime(s, "%Y-%m-%d")`: exactly four year digits, one or
two month and day digits, full consumption of the input, and calendar
validation (month 1–12, day within the month, year at least 1). Returns
`(year, month, day)` or `none` on `ValueError`. -/
def pyParseDate (s : String) : Option (Nat × Nat × Nat) :=
  match s.data with
  | c1 :: c2 :: c3 :: c4 :: '-' :: rest =>
    match charDigit c1, charDigit c2, charDigit c3, charDigit c4 with
    | some y1, some y2, some y3, some y4 =>
      let y := 1000 * y1 + 100 * y2 + 10 * y3 + y4
      match parseTwoDigit rest with
      | some (m, rest1) =>
        match rest1 with
        | '-' :: rest2 =>
          match parseTwoDigit rest2 with
          | some (d, rest3) =>
            if rest3 = [] ∧ 1 ≤ y ∧ 1 ≤ m ∧ m ≤ 12 ∧ 1 ≤ d ∧ d ≤ daysInMonth y m
            then some (y, m, d) else none
          | none => none
        | _ => none
      | none => none
    | _, _, _, _ => none
  | _ => none

/-- `datetime` comparison of parsed dates (lexicographic). -/
def dateLE (a b : Nat × Nat × Nat) : Bool :=
  a.1 < b.1 || (a.1 == b.1 && (a.2.1 < b.2.1 || (a.2.1 == b.2.1 && a.2.2 ≤ b.2.2)))

/-! ## Phase 5: timeline assignment (`5_assign_timeline.py`) -/

/-- A subtask record inside a project JSON document.  `none` models an
absent key: the validator subscripts `subtask["subtask_id"]` directly
(KeyError possible), while `deadline` is only ever added by
`apply_timeline_to_project`. -/
structure Subtask where
  subtask_id : Option Int := none
  phase : Option String := none
  deadline : Option String := none
deriving Repr, DecidableEq

/-- A project member record; the timeline code reads it with
`m.get("subtasks", [])`, so an absent key behaves as the empty list. -/
structure Member where
  rank : Option Int := none
  subtasks : Option (List Subtask) := none
deriving Repr, DecidableEq

/-- The loaded project JSON document (the code subscripts
`project_data["members"]` on the documents this phase processes). -/
structure ProjectData where
  members : List Member
deriving Repr, DecidableEq

/-- One entry of the model response `task_timeline` array; both fields are
read with `.get`, so either key may be absent. -/
structure TimelineTask where
  subtask_id : Option Int := none
  deadline : Option String := none
deriving Repr, DecidableEq

/-- The parsed timeline-assignment response;
`timeline_result.get("task_timeline", [])` makes the absent-key case
equivalent to the empty list. -/
structure TimelineResult where
  task_timeline : List TimelineTask
deriving Repr, DecidableEq

/-- The dict returned by `validate_timeline`. -/
structure ValidationReport where
  valid : Bool
  errors : List String
  warnings : List String
  total_subtasks : Nat
  assigned_tasks : Nat
deriving Repr, DecidableEq

/-- `m.get("subtasks", [])`. -/
def memberSubtasks (m : Member) : List Subtask :=
  m.subtasks.getD []

/-- Python `set.add` on a set kept as an insertion-ordered duplicate-free
list. -/
def setAdd (s : List Int) (i : Int) : List Int :=
  if i ∈ s then s else s ++ [i]

/-- A Python list comprehension / `for` loop over fallible element
accesses: stop at the first raised error, otherwise collect the values. -/
def mapExcept {α β : Type} (f : α → Except String β) : List α → Except String (List β)
  | [] => Except.ok []
  | a :: rest =>
    match f a with
    | Except.error e => Except.error e
    | Except.ok b =>
      match mapExcept f rest with
      | Except.error e => Except.error e
      | Except.ok bs => Except.ok (b :: bs)

/-- The inner `for subtask in member.get("subtasks", [])` loop building
`task_ids_in_project`: subscripts `subtask["subtask_id"]` directly and
therefore raises `KeyError` on a record lacking the key. -/
def collectSubtaskIds (acc : List Int) : List Subtask → Except String (List Int)
  | [] => Except.ok acc
  | st :: rest =>
    match st.subtask_id with
    | none => Except.error "KeyError: subtask_id"
    | some i => collectSubtaskIds (setAdd acc i) rest

/-- The outer `for member in project_data["members"]` loop building
`task_ids_in_project`. -/
def collectMemberIds (acc : List Int) : List Member → Except String (List Int)
  | [] => Except.ok acc
  | m :: rest =>
    match collectSubtaskIds acc (memberSubtasks m) with
    | Except.error e => Except.error e
    | Except.ok acc2 => collectMemberIds acc2 rest

/-- The set `task_ids_in_project` of `validate_timeline`. -/
def collectProjectIds (members : List Member) : Except String (List Int) :=
  collectMemberIds [] members

/-- State of the per-task validation loop: ids seen so far and the error
messages accumulated. -/
structure TaskLoopState where
  assigned : List Int
  errors : List String
deriving Repr, DecidableEq

/-- Body of the `for task in timeline_result.get("task_timeline", [])`
loop of `validate_timeline`: missing-id and missing-deadline checks
(Python truthiness: `None` and `""` both count as missing), then
`strptime` format and `[start, end]` window checks. -/
def checkTimelineTask (startDate endDate : String) (st : TaskLoopState)
    (task : TimelineTask) : TaskLoopState :=
  match task.subtask_id with
  | none => { st with errors := st.errors ++ ["任务缺少subtask_id字段"] }
  | some tid =>
    let st := { st with assigned := setAdd st.assigned tid }
    match task.deadline with
    | none => { st with errors := st.errors ++ ["任务" ++ toString tid ++ "缺少deadline字段"] }
    | some dl =>
      if dl = "" then
        { st with errors := st.errors ++ ["任务" ++ toString tid ++ "缺少deadline字段"] }
      else
        match pyParseDate dl, pyParseDate startDate, pyParseDate endDate with
        | some d, some s, some e =>
          if dateLE s d && dateLE d e then st
          else { st with errors := st.errors ++
              ["任务" ++ toString tid ++ "的deadline " ++ dl ++ " 超出范围 [" ++
                startDate ++ ", " ++ endDate ++ "]"] }
        | _, _, _ =>
          { st with errors := st.errors ++
              ["任务" ++ toString tid ++ "的deadline格式错误: " ++ dl] }

/-- `validate_timeline(project_data, timeline_result, start_date,
end_date)`.  The `Except.error` case models the `KeyError` raised while
building `task_ids_in_project` from a subtask record lacking
`subtask_id`; every other path returns the report dict. -/
def validateTimeline (projectData : ProjectData) (timelineResult : TimelineResult)
    (startDate endDate : String) : Except String ValidationReport :=
  let totalSubtasks := (projectData.members.map (fun m => (memberSubtasks m).length)).sum
  let assignedTasks := timelineResult.task_timeline.length
  let countErrors :=
    if assignedTasks ≠ totalSubtasks then
      ["任务数量不匹配: 预期" ++ toString totalSubtasks ++ "个，实际分配" ++
        toString assignedTasks ++ "个"]
    else []
  match collectProjectIds projectData.members with
  | Except.error e => Except.error e
  | Except.ok idsInProject =>
    let loopState := timelineResult.task_timeline.foldl
      (checkTimelineTask startDate endDate) ⟨[], countErrors⟩
    let missingTasks := idsInProject.filter (fun i => i ∉ loopState.assigned)
    let errors :=
      if missingTasks ≠ [] then
        loopState.errors ++
          ["以下任务未被分配时间: " ++ toString (sortInts missingTasks)]
      else loopState.errors
    let extraTasks := loopState.assigned.filter (fun i => i ∉ idsInProject)
    let warnings :=
      if extraTasks ≠ [] then
        ["以下任务不在原项目中: " ++ toString (sortInts extraTasks)]
      else []
    Except.ok { valid := errors.isEmpty, errors := errors, warnings := warnings,
                total_subtasks := totalSubtasks, assigned_tasks := assignedTasks }

/-- The `deadline_map` built by `apply_timeline_to_project`:
`if task_id and deadline` keeps only Python-truthy values (a nonzero id
and a nonempty string). -/
def buildDeadlineMap (timelineResult : TimelineResult) : List (Int × String) :=
  timelineResult.task_timeline.foldl
    (fun m task =>
      match task.subtask_id, task.deadline with
      | some tid, some dl =>
        if tid ≠ 0 ∧ dl ≠ "" then dictInsert m tid dl else m
      | _, _ => m)
    []

/-- `apply_timeline_to_project`: adds a `deadline` field to every project
subtask whose id is in the deadline map.  The update loop subscripts
`subtask["subtask_id"]` directly, hence the `Except`. -/
def applyTimelineToProject (projectData : ProjectData)
    (timelineResult : TimelineResult) : Except String ProjectData :=
  let deadlineMap := buildDeadlineMap timelineResult
  match mapExcept (fun m =>
    match m.subtasks with
    | none => Except.ok m
    | some sts =>
      match mapExcept (fun st =>
        match st.subtask_id with
        | none => Except.error "KeyError: subtask_id"
        | some tid =>
          match dictLookup deadlineMap tid with
          | some dl => Except.ok { st with deadline := some dl }
          | none => Except.ok st) sts with
      | Except.error e => Except.error e
      | Except.ok sts2 => Except.ok { m with subtasks := some sts2 })
    projectData.members with
  | Except.error e => Except.error e
  | Except.ok members2 => Except.ok { members := members2 }

/-- The post-response core of `process_single_project`: validate the
timeline result, raise (`Except.error`) if validation fails, otherwise
apply the timeline and return the document that is then written back to
disk (`save_project_file`).  An `Except.error` therefore means the
on-disk project file is left untouched. -/
def processSingleProject (projectName : String) (projectData : ProjectData)
    (timelineResult : TimelineResult) (startDate endDate : String) :
    Except String ProjectData :=
  match validateTimeline projectData timelineResult startDate endDate with
  | Except.error e => Except.error e
  | Except.ok validation =>
    if !validation.valid then
      Except.error ("项目 " ++ projectName ++ " 时间线分配验证失败")
    else
      applyTimelineToProject projectData timelineResult

/-- The fixed five-phase ordering of subtask lifecycle phases, from the
task-generation prompts in `prompt.py`. -/
def phaseOrder : List String :=
  ["Strategy & Planning", "Design & Architecture", "Development & Implementation",
   "Testing & Optimization", "Deployment & Launch"]

/-- Position of a phase label in the fixed five-phase ordering. -/
def phaseIndex (p : String) : Nat :=
  phaseOrder.indexOf p

/-- Rewrite the `phase` field of every subtask of a project document. -/
def setSubtaskPhases (f : Option String → Option String)
    (projectData : ProjectData) : ProjectData :=
  { members := projectData.members.map (fun m =>
      { m with subtasks := m.subtasks.map (fun sts =>
          sts.map (fun st => { st with phase := f st.phase })) }) }

/-! ## Phase 2: hard-skill assignment (`benchmark_curation/2_assign_hardskill.py`) -/

/-- A `{"skill": ..., "level": ...}` item of a skill assignment; the
validators read both keys with `.get`. -/
structure HardSkill where
  skill : Option String := none
  level : Option String := none
deriving Repr, DecidableEq

/-- One element of the `assignments` array of a parsed skill-assignment
batch response (`assignment.get("name", "")`,
`assignment.get("hard_skills", [])`). -/
structure SkillAssignment where
  name : Option String := none
  hard_skills : Option (List HardSkill) := none
deriving Repr, DecidableEq

/-- A parsed batch response of `assign_skills_in_batches`; the code
aborts the whole run when the `assignments` key is absent. -/
structure SkillsResponse where
  assignments : Option (List SkillAssignment) := none
deriving Repr, DecidableEq

/-- The `for assignment in batch_assignments:` merge loop of
`assign_skills_in_batches`: `assignments[name] = hard_skills` with
Python-dict overwrite semantics and no diagnostic of any kind. -/
def mergeSkillBatch (acc : List (String × List HardSkill))
    (batch : List SkillAssignment) : List (String × List HardSkill) :=
  batch.foldl (fun m a => dictInsert m (a.name.getD "") (a.hard_skills.getD [])) acc

/-- The per-batch loop of `assign_skills_in_batches`, with the
`call_gpt5` exchange abstracted as a function of the batch number (the
prompt is built from the batch employees and fed to one call per batch).
A failed call or a response lacking `assignments` aborts the whole
orchestration with `None`. -/
def skillsLoop (callGpt : Nat → Option SkillsResponse) :
    List Nat → List (String × List HardSkill) →
    Option (List (String × List HardSkill))
  | [], acc => some acc
  | n :: rest, acc =>
    match callGpt n with
    | none => none
    | some resp =>
      match resp.assignments with
      | none => none
      | some batchAssignments =>
        skillsLoop callGpt rest (mergeSkillBatch acc batchAssignments)

/-- `assign_skills_in_batches(employees, skill_universe, batch_size)`:
`ceil(len(employees) / batch_size)` sequential batches, merged into one
name-keyed map; any batch failure returns `None` for the whole run. -/
def assignSkillsInBatches {α : Type} (callGpt : Nat → Option SkillsResponse)
    (employees : List α) (batchSize : Nat) :
    Option (List (String × List HardSkill)) :=
  skillsLoop callGpt
    (List.range' 1 ((employees.length + batchSize - 1) / batchSize)) []

/-- `config.SKILL_COUNT_BY_RANK` from `config.py`. -/
def skillCountByRank (rank : Int) : Option (Nat × Nat) :=
  if rank = 1 then some (6, 10)
  else if rank = 2 then some (5, 8)
  else if rank = 3 then some (3, 6)
  else none

/-- `config.SKILL_LEVELS`. -/
def skillLevels : List String := ["strong", "medium", "low"]

/-- An employee record as consumed by `validate_skill_assignments`; every
key is read with `.get` with a default. -/
structure SkillEmployee where
  name : Option String := none
  rank : Option Int := none
  hard_skills : Option (List HardSkill) := none
deriving Repr, DecidableEq

/-- Per-employee check body of `validate_skill_assignments` (all six
`SKILL_VALIDATION_RULES` flags are `True` in `config.py`); an employee
with no skills is reported and the remaining checks are skipped
(`continue`). -/
def skillEmployeeErrors (skillUniverse : List String) (e : SkillEmployee) :
    List String :=
  let name := e.name.getD ""
  let rank := e.rank.getD 0
  let hardSkills := e.hard_skills.getD []
  if hardSkills = [] then [name ++ ": 没有技能分配"]
  else
    let skillCount := hardSkills.length
    let minCount := (skillCountByRank rank).map Prod.fst |>.getD 0
    let maxCount := (skillCountByRank rank).map Prod.snd |>.getD 100
    let countErrors :=
      if minCount ≤ skillCount ∧ skillCount ≤ maxCount then []
      else [name ++ ": 技能数量 " ++ toString skillCount ++ " 不在范围内 (" ++
            toString minCount ++ "-" ++ toString maxCount ++ ")"]
    let universeErrors := hardSkills.foldl
      (fun errs item =>
        let skill := item.skill.getD ""
        if skill ∈ skillUniverse then errs
        else errs ++ [name ++ ": 技能 " ++ skill ++ " 不在技能集合中"]) []
    let skillsOnly := hardSkills.map (fun s => s.skill.getD "")
    let dupErrors :=
      if skillsOnly.length ≠ skillsOnly.dedup.length then [name ++ ": 存在重复技能"]
      else []
    let levelErrors := hardSkills.foldl
      (fun errs item =>
        let level := item.level.getD ""
        if level ∈ skillLevels then errs
        else errs ++ [name ++ ": 技能强度等级 " ++ level ++
              " 无效（应为 strong/medium/low）"]) []
    let levels := hardSkills.map (fun s => s.level.getD "")
    let strongErrors :=
      if "strong" ∈ levels then [] else [name ++ ": 没有 strong 等级的技能"]
    countErrors ++ universeErrors ++ dupErrors ++ levelErrors ++ strongErrors

/-- `validate_skill_assignments(employees, skill_universe)`: returns
`(passed, errors)`; every record access uses `.get`, so it is total on
arbitrary records. -/
def validateSkillAssignments (employees : List SkillEmployee)
    (skillUniverse : List String) : Bool × List String :=
  let errors := employees.foldl
    (fun errs e => errs ++ skillEmployeeErrors skillUniverse e) []
  (errors.isEmpty, errors)

/-! ## Phase 1: employee generation (`benchmark_curation/1_generate_file.py`) -/

/-- A parsed batch response of `generate_employee_data_in_batches`; the
orchestration aborts when the `employees` key is absent. -/
structure EmployeesResponse (β : Type) where
  employees : Option (List β) := none
deriving Repr, DecidableEq

/-- The per-batch loop of `generate_employee_data_in_batches`: the first
batch uses the leader-carrying size, later batches request
`min(batch_size, remaining)`; a non-positive request breaks the loop and
returns what was accumulated, and a failed call or a response lacking
`employees` aborts the whole run with `None`. -/
def employeesLoop {β : Type} (callGpt : Nat → Option (EmployeesResponse β))
    (totalEmployees : Int) (batchSize : Int) (firstBatchSize : Int) :
    List Nat → List β → Option (List β)
  | [], acc => some acc
  | n :: rest, acc =>
    let currentBatchSize : Int :=
      if n = 1 then firstBatchSize
      else min batchSize (totalEmployees - acc.length)
    if currentBatchSize ≤ 0 then some acc
    else
      match callGpt n with
      | none => none
      | some resp =>
        match resp.employees with
        | none => none
        | some batchEmployees =>
          employeesLoop callGpt totalEmployees batchSize firstBatchSize rest
            (acc ++ batchEmployees)

/-- `generate_employee_data_in_batches(batch_size)` with the config
constants (`TOTAL_EMPLOYEES`, `TOP_LEADER_COUNT`, `TEAM_LEADER_COUNT`)
passed explicitly; the first batch carries the leaders:
`first_batch_size = TOP_LEADER_COUNT + TEAM_LEADER_COUNT + (batch_size - 8)`,
capped at `TOTAL_EMPLOYEES`. -/
def generateEmployeeDataInBatches {β : Type}
    (callGpt : Nat → Option (EmployeesResponse β))
    (totalEmployees topLeaderCount teamLeaderCount batchSize : Nat) :
    Option (List β) :=
  let firstBatchSize : Int :=
    (topLeaderCount : Int) + (teamLeaderCount : Int) + ((batchSize : Int) - 8)
  let firstBatchSize :=
    if firstBatchSize > (totalEmployees : Int) then (totalEmployees : Int)
    else firstBatchSize
  let totalBatches := (totalEmployees + batchSize - 1) / batchSize
  employeesLoop callGpt (totalEmployees : Int) (batchSize : Int) firstBatchSize
    (List.range' 1 totalBatches) []

/-! ## Phase 3: communication-style assignment (`3_assign_communicationstyle.py`) -/

/-- One dimension of the hardcoded communication-style universe: its name
and the `high` / `medium` / `low` labels. -/
structure StyleDimension where
  dimension : String
  high : String
  medium : String
  low : String
deriving Repr, DecidableEq

/-- The hardcoded universe built by
`generate_communication_style_universe` (labels only; the prose
descriptions are prompt content). -/
def communicationStyleUniverse : List StyleDimension :=
  [⟨"Formality", "Formal", "Semi-formal", "Casual"⟩,
   ⟨"Verbosity", "Detailed", "Moderate", "Concise"⟩,
   ⟨"Humor", "Frequent", "Occasional", "Minimal"⟩,
   ⟨"Jargon_Usage", "Technical", "Balanced", "Plain"⟩,
   ⟨"Emoji_Usage", "Frequent", "Occasional", "Rare"⟩,
   ⟨"Directness", "Direct", "Balanced", "Indirect"⟩,
   ⟨"Warmth", "Warm", "Friendly", "Neutral"⟩,
   ⟨"Questioning_Style", "Probing", "Clarifying", "Accepting"⟩]

/-- An employee communication-style vector: a dict from dimension name to
level label. -/
def Style : Type := List (String × String)

instance : DecidableEq Style := by
  unfold Style; infer_instance

instance : Repr Style := by
  unfold Style; infer_instance

/-- `validate_communication_style(style, universe)`: every universe
dimension must be present with one of its three labels, and no unknown
dimension may appear; returns `(is_valid, errors)`. -/
def validateCommunicationStyle (style : Style) (univ : List StyleDimension) :
    Bool × List String :=
  let validLevels := univ.map (fun d => (d.dimension, [d.high, d.medium, d.low]))
  let missingOrInvalid := validLevels.foldl
    (fun errs p =>
      match dictLookup style p.1 with
      | none => errs ++ ["缺少维度: " ++ p.1]
      | some v =>
        if v ∈ p.2 then errs
        else errs ++ [p.1 ++ ": " ++ v ++ " 不在有效值中"]) []
  let unknown := (style.map Prod.fst).foldl
    (fun errs k =>
      if k ∈ validLevels.map Prod.fst then errs
      else errs ++ ["未知维度: " ++ k]) missingOrInvalid
  (unknown.isEmpty, unknown)

/-- One element of the `assignments` array of a parsed
communication-style batch response. -/
structure StyleAssignment where
  name : Option String := none
  communication_style : Option Style := none
deriving Repr, DecidableEq

/-- A parsed batch response;
`response_data.get("assignments", [])` treats an absent key as `[]`. -/
structure StyleResponse where
  assignments : Option (List StyleAssignment) := none
deriving Repr, DecidableEq

/-- The verify-and-store loop of `assign_communication_styles_in_batches`:
only assignments that pass `validate_communication_style` enter the map;
invalid ones are logged as warnings and dropped. -/
def mergeStyleBatch (univ : List StyleDimension)
    (acc : List (String × Style)) (batch : List StyleAssignment) :
    List (String × Style) :=
  batch.foldl
    (fun m a =>
      let name := a.name.getD ""
      let commStyle := a.communication_style.getD []
      if (validateCommunicationStyle commStyle univ).1 then
        dictInsert m name commStyle
      else m)
    acc

/-- The per-batch loop of `assign_communication_styles_in_batches`: a
failed call is logged ("批次 ... 失败，跳过") and the loop `continue`s
with the next batch — it does not abort the run. -/
def stylesLoop (callGpt : Nat → Option StyleResponse)
    (univ : List StyleDimension) :
    List Nat → List (String × Style) → List (String × Style)
  | [], acc => acc
  | n :: rest, acc =>
    match callGpt n with
    | none => stylesLoop callGpt univ rest acc
    | some resp =>
      stylesLoop callGpt univ rest
        (mergeStyleBatch univ acc (resp.assignments.getD []))

/-- `assign_communication_styles_in_batches(df, universe, batch_size)`:
`ceil(len(df) / batch_size)` sequential batches; the run always returns
the merged (possibly partial) map. -/
def assignCommunicationStylesInBatches {α : Type}
    (callGpt : Nat → Option StyleResponse) (employees : List α)
    (univ : List StyleDimension) (batchSize : Nat) :
    List (String × Style) :=
  stylesLoop callGpt univ
    (List.range' 1 ((employees.length + batchSize - 1) / batchSize)) []

/-! ## Phase 4: task generation (`4_generate_task.py`) -/

/-- A team-member dict as used by stages 2–3 of `4_generate_task.py`.
`user_name` and `communication_style` are always present on members built
by `employee_row_to_dict`; `original_communication_style` is only added
by the stage-2 snapshot. -/
structure TeamMember where
  user_name : String
  rank : Option Int := none
  hard_skills : Option (List HardSkill) := none
  communication_style : Style
  original_communication_style : Option Style := none
deriving Repr, DecidableEq

/-- The snapshot loop at the top of `stage2_adjust_communication_styles`:
`if "original_communication_style" not in member: member[...] =
member["communication_style"].copy()`. -/
def snapshotOriginalStyles (team : List TeamMember) : List TeamMember :=
  team.map (fun m =>
    match m.original_communication_style with
    | none => { m with original_communication_style := some m.communication_style }
    | some _ => m)

/-- One element of the `adjusted_styles` array of a style-adjustment
response (`adj.get("user_name")`, `adj.get("adjusted_style", {})`). -/
structure StyleAdjustment where
  user_name : Option String := none
  adjusted_style : Option Style := none
deriving Repr, DecidableEq

/-- The parsed style-adjustment response
(`adjustments.get("adjusted_styles", [])`). -/
structure AdjustmentsResult where
  adjusted_styles : Option (List StyleAdjustment) := none
deriving Repr, DecidableEq

/-- `apply_style_adjustments(team_members, adjustments)`: build the
`user_name -> adjusted_style` map, then overwrite the
`communication_style` of exactly the members whose name is a key of that
map. -/
def applyStyleAdjustments (team : List TeamMember)
    (adjustments : AdjustmentsResult) : List TeamMember :=
  let styleMap :=
    (adjustments.adjusted_styles.getD []).foldl
      (fun m adj => dictInsert m adj.user_name (adj.adjusted_style.getD [])) []
  team.map (fun m =>
    match dictLookup styleMap (some m.user_name) with
    | some adjStyle => { m with communication_style := adjStyle }
    | none => m)

/-- The post-call core of `stage2_adjust_communication_styles`: snapshot
originals, fail with `None` only when the call failed, otherwise apply the
adjustments and return the team — the subsequent
`validate_communication_styles` failure is only printed and never blocks. -/
def stage2Core (team : List TeamMember)
    (callResult : Option AdjustmentsResult) : Option (List TeamMember) :=
  let team := snapshotOriginalStyles team
  match callResult with
  | none => none
  | some adjustments => some (applyStyleAdjustments team adjustments)

/-- `validate_communication_styles(team)` of `4_generate_task.py`: checks
each member's current vector against the fixed vocabulary (missing keys
and out-of-vocabulary values are violations; unlike the phase-3
validator it does not flag extra keys). -/
def validateCommunicationStyles (team : List TeamMember) : Bool :=
  let validValues := communicationStyleUniverse.map
    (fun d => (d.dimension, [d.high, d.medium, d.low]))
  let errors := team.foldl
    (fun errs m =>
      validValues.foldl
        (fun errs' p =>
          match dictLookup (m.communication_style : Style) p.1 with
          | none => errs' ++ [m.user_name ++ "的" ++ p.1 ++ "值不合法"]
          | some v =>
            if v ∈ p.2 then errs'
            else errs' ++ [m.user_name ++ "的" ++ p.1 ++ "值不合法"]) errs)
    []
  errors.isEmpty

/-- `config.MIN_SUBTASKS_PER_MEMBER`. -/
def minSubtasksPerMember : Nat := 5

/-- A subtask produced by the task-breakdown response; only its presence
matters to `validate_task_assignments`. -/
structure GenSubtask where
  description : Option String := none
  phase : Option String := none
deriving Repr, DecidableEq

/-- One element of the `task_assignments` array
(`assignment.get("user_name")`, `assignment.get("subtasks", [])`). -/
structure TaskAssignment where
  user_name : Option String := none
  subtasks : Option (List GenSubtask) := none
deriving Repr, DecidableEq

/-- A team-member record as read by `validate_task_assignments`, which
subscripts `m["user_name"]`, `m["hard_skills"]` and `s["skill"]`
directly (so any of them may raise `KeyError`). -/
structure TaskTeamMember where
  user_name : Option String := none
  hard_skills : Option (List HardSkill) := none
deriving Repr, DecidableEq

/-- `validate_task_assignments(assignments, team)`: collects team names
and skills via direct subscripts (hence `Except`), then checks that every
team member received an assignment, that every assignment names a team
member, and that each member got at least `MIN_SUBTASKS_PER_MEMBER`
subtasks; returns the pass/fail flag (errors are only printed). -/
def taskMemberName (m : TaskTeamMember) : Except String String :=
  match m.user_name with
  | none => Except.error "KeyError: user_name"
  | some n => Except.ok n

/-- The `team_skills[m["user_name"]] = set(s["skill"] for s in
m["hard_skills"])` loop body: its computed value is never used (the
skill-match check is commented out in the source), but its direct
subscripts can still raise. -/
def taskMemberSkills (m : TaskTeamMember) : Except String (List String) :=
  match m.user_name with
  | none => Except.error "KeyError: user_name"
  | some _ =>
    match m.hard_skills with
    | none => Except.error "KeyError: hard_skills"
    | some skills =>
      mapExcept (fun s =>
        match s.skill with
        | none => Except.error "KeyError: skill"
        | some sk => Except.ok sk) skills

def validateTaskAssignments (assignments : List TaskAssignment)
    (team : List TaskTeamMember) : Except String Bool :=
  match mapExcept taskMemberName team with
  | Except.error e => Except.error e
  | Except.ok teamNames =>
  match mapExcept taskMemberSkills team with
  | Except.error e => Except.error e
  | Except.ok _ =>
  let assignedNames := assignments.map (fun a => a.user_name)
  let missingMembers := teamNames.filter (fun n => some n ∉ assignedNames)
  let missingErrors :=
    if missingMembers ≠ [] then
      ["以下成员没有被分配任务: " ++ String.intercalate ", " missingMembers]
    else []
  let errors := assignments.foldl
    (fun errs a =>
      match a.user_name with
      | none => errs ++ ["用户 None 不在团队中"]
      | some u =>
        if u ∉ teamNames then errs ++ ["用户 " ++ u ++ " 不在团队中"]
        else
          let subtasks := a.subtasks.getD []
          if subtasks.length < minSubtasksPerMember then
            errs ++ [u ++ "的任务数(" ++ toString subtasks.length ++
              ")少于最小值(" ++ toString minSubtasksPerMember ++ ")"]
          else errs)
    missingErrors
  Except.ok errors.isEmpty

/-! ## Response cleanup (`call_gpt5` of `1_generate_file.py`,
`call_gpt_for_timeline` of `5_assign_timeline.py`) -/

/-- The markdown-fence stripping shared by every caller:
drop a leading ```` ```json ```` or ```` ``` ```` and a trailing
```` ``` ````, then `strip()`. -/
def stripFences (content : List Char) : List Char :=
  let content :=
    if List.isPrefixOf ("```json".data) content then content.drop 7 else content
  let content :=
    if List.isPrefixOf ("```".data) content then content.drop 3 else content
  let content :=
    if List.isSuffixOf ("```".data) content then content.take (content.length - 3)
    else content
  pyStrip content

/-- The character class removed by the timeline caller's
`re.sub(r"[\x00-\x08\x0B-\x0C\x0E-\x1F\x7F]", "", content)`.  Note that
it does not contain `\x09` (tab), `\x0A` (newline) or `\x0D` (CR). -/
def isStrippedCtl (c : Char) : Bool :=
  c.toNat ≤ 0x08 || c.toNat == 0x0B || c.toNat == 0x0C ||
  (0x0E ≤ c.toNat && c.toNat ≤ 0x1F) || c.toNat == 0x7F

/-- The cleanup of `call_gpt5` (phases 1–4): `content.strip()` on
receipt, fence stripping, `strip()`; the result is then fed to
`json.loads`. -/
def cleanBasicContent (content : List Char) : List Char :=
  stripFences (pyStrip content)

/-- The cleanup of `call_gpt_for_timeline` before JSON extraction:
`strip`, fence stripping, `strip`, control-character removal. -/
def cleanTimelineContent (content : List Char) : List Char :=
  (stripFences (pyStrip content)).filter (fun c => !isStrippedCtl c)

/-- Python `content.find(c)`. -/
def pyFind (content : List Char) (c : Char) : Option Nat :=
  if c ∈ content then some (content.indexOf c) else none

/-- Python `content.rfind(c)`. -/
def pyRFind (content : List Char) (c : Char) : Option Nat :=
  (pyFind content.reverse c).map (fun i => content.length - 1 - i)

/-- The JSON-object extraction of `call_gpt_for_timeline`: after cleanup,
locate the first `{` and the last `}`; fail (`ValueError`) when either is
missing or they are out of order, otherwise return the enclosed slice
`content[start_idx : end_idx + 1]` that is passed to `json.loads`. -/
def extractTimelineJsonStr (content : List Char) : Option (List Char) :=
  let content := cleanTimelineContent content
  match pyFind content '{', pyRFind content '}' with
  | some startIdx, some endIdx =>
    if startIdx ≥ endIdx then none
    else some ((content.drop startIdx).take (endIdx + 1 - startIdx))
  | _, _ => none

/-- The full timeline extraction with the JSON parser abstracted: clean,
slice, parse. -/
def extractTimelineResult {J : Type} (parse : List Char → Option J)
    (content : List Char) : Option J :=
  (extractTimelineJsonStr content).bind parse

/-- The full phase-1 extraction with the JSON parser abstracted. -/
def extractBasicResult {J : Type} (parse : List Char → Option J)
    (content : List Char) : Option J :=
  parse (cleanBasicContent content)

/-- A structurally clean response text: it starts with `{` and ends with
`}` — no markdown fence, no surrounding prose or whitespace. -/
def bareJsonShaped (content : List Char) : Bool :=
  match content with
  | [] => false
  | c :: rest =>
    c == '{' && (match rest.getLast? with
                 | some d => d == '}'
                 | none => false)

/-! ## Hard_Skills cell round trip
(`write_to_excel_with_skills` of `benchmark_curation/2_assign_hardskill.py`,
`parse_hard_skills` of `4_generate_task.py`) -/

/-- Python `", ".join(items)`. -/
def joinSep : List (List Char) → List Char
  | [] => []
  | [x] => x
  | x :: y :: rest => x ++ ',' :: ' ' :: joinSep (y :: rest)

/-- The formatted `skill(level)` item string of one skill. -/
def skillItemStr (p : List Char × List Char) : List Char :=
  p.1 ++ '(' :: (p.2 ++ [')'])

/-- The Hard_Skills cell written by `write_to_excel_with_skills`:
`", ".join` of the per-skill `skill(level)` items, the empty string for no skills. -/
def skillCellValue (skills : List (List Char × List Char)) : List Char :=
  if skills = [] then []
  else joinSep (skills.map skillItemStr)

/-- Whether `[',', ' ']` (the separator of `str.split(", ")`) occurs in a
character list. -/
def hasSep : List Char → Bool
  | [] => false
  | [_] => false
  | a :: b :: rest => (a == ',' && b == ' ') || hasSep (b :: rest)

/-- Python `s.split(", ")`: leftmost, non-overlapping. -/
def splitSep : List Char → List (List Char)
  | [] => [[]]
  | [c] => [[c]]
  | a :: b :: rest =>
    if a = ',' ∧ b = ' ' then [] :: splitSep rest
    else
      match splitSep (b :: rest) with
      | [] => [[a]]
      | h :: t => (a :: h) :: t

/-- A `{"skill": ..., "proficiency": ...}` entry produced by
`parse_hard_skills`. -/
structure ParsedSkill where
  skill : List Char
  proficiency : List Char
deriving Repr, DecidableEq

/-- The per-item body of the `parse_hard_skills` loop: items without both
parentheses are skipped; otherwise
`skill = item[:item.index("(")].strip()` and
`proficiency = item[item.index("(") + 1 : item.index(")")].strip()`. -/
def parseSkillItem (item : List Char) : Option ParsedSkill :=
  if '(' ∈ item ∧ ')' ∈ item then
    let openIdx := item.indexOf '('
    let closeIdx := item.indexOf ')'
    some ⟨pyStrip (item.take openIdx),
          pyStrip ((item.drop (openIdx + 1)).take (closeIdx - (openIdx + 1)))⟩
  else none

/-- `parse_hard_skills(hard_skills_str)`: empty input (the NaN / empty
cell guard) yields `[]`; otherwise split on `", "` and parse each
parenthesised item. -/
def parse_hard_skills (cell : List Char) : List ParsedSkill :=
  if cell = [] then []
  else (splitSep cell).filterMap parseSkillItem

/-! ## Concrete data for the concrete-input theorems -/

/-- A project with two same-rank members owning one subtask each, in the
first and the fourth of the five phases. -/
def cexPhaseProject : ProjectData :=
  ⟨[⟨some 2, some [⟨some 1, some "Strategy & Planning", none⟩]⟩,
    ⟨some 2, some [⟨some 2, some "Testing & Optimization", none⟩]⟩]⟩

/-- A timeline giving the earlier-phase subtask the later deadline; both
deadlines are inside the configured window. -/
def cexPhaseTimeline : TimelineResult :=
  ⟨[⟨some 1, some "2025-06-01"⟩, ⟨some 2, some "2025-02-01"⟩]⟩

/-- A project whose single subtask never appears in the (empty) timeline
response, so validation fails. -/
def cexInvalidProject : ProjectData :=
  ⟨[⟨some 3, some [⟨some 1, some "Strategy & Planning", none⟩]⟩]⟩

/-- A project containing a subtask record that lacks the `subtask_id`
key. -/
def cexNoIdProject : ProjectData :=
  ⟨[⟨some 3, some [⟨none, some "Strategy & Planning", none⟩]⟩]⟩

/-- A fully valid communication-style vector. -/
def cexOkStyle : Style :=
  [("Formality", "Formal"), ("Verbosity", "Detailed"), ("Humor", "Frequent"),
   ("Jargon_Usage", "Technical"), ("Emoji_Usage", "Frequent"),
   ("Directness", "Direct"), ("Warmth", "Warm"),
   ("Questioning_Style", "Probing")]

/-- A communication-style caller whose first batch fails and whose second
batch succeeds with one valid assignment. -/
def cexStyleCaller : Nat → Option StyleResponse :=
  fun n => if n = 1 then none else some ⟨some [⟨some "张三", some cexOkStyle⟩]⟩

/-- A skill-assignment caller that always fails. -/
def cexFailingSkillsCaller : Nat → Option SkillsResponse := fun _ => none

/-- An employee-generation caller that always fails. -/
def cexFailingEmployeesCaller : Nat → Option (EmployeesResponse Unit) :=
  fun _ => none

/-- A communication-style caller that succeeds on every batch with one
valid assignment. -/
def cexOkStyleCaller : Nat → Option StyleResponse :=
  fun _ => some ⟨some [⟨some "李四", some cexOkStyle⟩]⟩

/-- A parsed skill batch carrying two assignments with distinct names,
although only one employee was requested. -/
def cexOverfullBatch : List SkillAssignment :=
  [⟨some "B", some [⟨some "Python", some "strong"⟩]⟩,
   ⟨some "C", some [⟨some "Go", some "medium"⟩]⟩]

/-- A team member carrying a fully valid communication-style vector and
no snapshot key. -/
def cexMember : TeamMember :=
  { user_name := "王五", communication_style := cexOkStyle }

/-- An adjustment result whose vector uses the lowercase label
`"formal"`, which is outside the `Formality` vocabulary. -/
def cexBadAdjustments : AdjustmentsResult :=
  ⟨some [⟨some "王五", some [("Formality", "formal")]⟩]⟩

/-- The member state `stage2Core` produces from `cexMember` under
`cexBadAdjustments`: the invalid vector is stored, the valid original is
only kept as the snapshot. -/
def cexAdjustedMember : TeamMember :=
  { user_name := "王五",
    communication_style := [("Formality", "formal")],
    original_communication_style := some cexOkStyle }

/-- A second member, not named by the partial adjustment below. -/
def cexZhao : TeamMember :=
  { user_name := "赵六", communication_style := cexOkStyle }

/-- The state of `cexZhao` after snapshot and adjustment: untouched
except for the snapshot key. -/
def cexZhaoAfter : TeamMember :=
  { user_name := "赵六", communication_style := cexOkStyle,
    original_communication_style := some cexOkStyle }

/-- A two-member team with valid styles and no snapshot key. -/
def cexTwoMemberTeam : List TeamMember :=
  [cexMember, cexZhao]

/-- An adjustment result naming only one of the two members of
`cexTwoMemberTeam`. -/
def cexPartialAdjustments : AdjustmentsResult :=
  ⟨some [⟨some "王五", some cexOkStyle⟩]⟩

/-- A response text that is a bare JSON object containing a raw DEL
(`0x7F`) character inside a string field — legal in JSON, but inside the
character class removed by the timeline cleanup. -/
def cexDelJson : List Char := "\x7b\"a\":\"\x7F\"\x7d".data

/-- A response text that is a bare JSON object whose string field
contains a raw tab and a raw newline. -/
def cexCtlJson : List Char := "\x7b\"a\":\"x\ty\nz\"\x7d".data

/-- A clean bare JSON object text. -/
def cexCleanJson : List Char := "\x7b\"a\": 1\x7d".data

/-- One skill pair whose name carries a trailing space (and no
parenthesis or `", "` substring). -/
def cexPaddedSkills : List (List Char × List Char) :=
  [("Go ".data, "strong".data)]

/-- A well-formed skill list for the round-trip witness. -/
def cexGoodSkills : List (List Char × List Char) :=
  [("Python".data, "strong".data), ("商业模式画布".data, "medium".data)]

/-- A skill-assignment caller that answers every batch with
`cexOverfullBatch`. -/
def cexOverfullCaller : Nat → Option SkillsResponse :=
  fun _ => some ⟨some cexOverfullBatch⟩

/-! ## Helper lemmas -/

theorem dictInsert_length_le {κ α : Type} [DecidableEq κ]
    (m : List (κ × α)) (k : κ) (v : α) :
    (dictInsert m k v).length ≤ m.length + 1 := by
  induction m with
  | nil => simp [dictInsert]
  | cons hd tl ih =>
    cases hd with
    | mk k' v' =>
      by_cases h : k' = k
      · simp [dictInsert, h]
      · simp [dictInsert, h]
        omega

theorem mem_dictInsert {κ α : Type} [DecidableEq κ]
    {m : List (κ × α)} {k : κ} {v : α} {p : κ × α}
    (hp : p ∈ dictInsert m k v) : p ∈ m ∨ p = (k, v) := by
  induction m with
  | nil =>
    simp [dictInsert] at hp
    simp [hp]
  | cons hd tl ih =>
    cases hd with
    | mk k' v' =>
      by_cases h : k' = k
      · simp [dictInsert, h] at hp
        rcases hp with hp | hp
        · right; simp [hp]
        · left; simp [hp]
      · simp [dictInsert, h] at hp
        rcases hp with hp | hp
        · left; simp [hp]
        · rcases ih hp with h' | h'
          · left; simp [h']
          · right; exact h'

theorem dictLookup_dictInsert {κ α : Type} [DecidableEq κ]
    (m : List (κ × α)) (k k' : κ) (v : α) :
    dictLookup (dictInsert m k v) k' =
      if k' = k then some v else dictLookup m k' := by
  induction m with
  | nil =>
    by_cases h : k' = k <;> simp [dictInsert, dictLookup, h]
  | cons hd tl ih =>
    cases hd with
    | mk k0 v0 =>
      by_cases h0 : k0 = k
      · subst h0
        by_cases h : k' = k0 <;> simp [dictInsert, dictLookup, h]
      · by_cases h : k' = k0
        · subst h
          have : ¬ k' = k := fun hc => h0 (hc ▸ rfl)
          simp [dictInsert, h0, dictLookup, this]
        · simp [dictInsert, h0, dictLookup, h, ih]

theorem zip_map_mem {α β : Type} {g : α → β} {l : List α} {p : α × β}
    (hp : p ∈ l.zip (l.map g)) : p.2 = g p.1 := by
  induction l with
  | nil => simp at hp
  | cons a rest ih =>
    simp [List.zip_cons_cons] at hp
    rcases hp with hp | hp
    · rw [hp]
    · exact ih hp

/-! ## Claim theorems -/

/-- C1 (counterexample): a project with two same-rank subtasks where the
earlier-phase subtask has the strictly later deadline (both inside the
window) is reported `valid = True` with no error by `validate_timeline`
— the validator enforces no deadline/phase ordering. -/
theorem c1_counterexample :
    validateTimeline cexPhaseProject cexPhaseTimeline "2025-01-01" "2025-12-31" =
      Except.ok ⟨true, [], [], 2, 2⟩ ∧
    phaseIndex "Strategy & Planning" < phaseIndex "Testing & Optimization" ∧
    cexPhaseProject.members.map Member.rank = [some 2, some 2] ∧
    pyParseDate "2025-06-01" = some (2025, 6, 1) ∧
    pyParseDate "2025-02-01" = some (2025, 2, 1) ∧
    dateLE (2025, 6, 1) (2025, 2, 1) = false := by
  decide

/-- C2: whenever `validate_timeline` returns a report with
`valid == False`, `process_single_project` raises (models as
`Except.error`) before applying the timeline and before writing, so the
on-disk project document is untouched. -/
theorem c2_invalid_timeline_aborts (projectName : String) (pd : ProjectData)
    (tr : TimelineResult) (sd ed : String) (r : ValidationReport)
    (hv : validateTimeline pd tr sd ed = Except.ok r) (hr : r.valid = false) :
    processSingleProject projectName pd tr sd ed =
      Except.error ("项目 " ++ projectName ++ " 时间线分配验证失败") := by
  simp [processSingleProject, hv, hr]

/-- C2 (witness): a project whose single subtask is missing from the
timeline response validates as invalid, and the timeline phase raises
instead of producing a document to write. -/
theorem c2_invalid_timeline_aborts_witness :
    processSingleProject "示例项目" cexInvalidProject ⟨[]⟩
      "2025-01-01" "2025-12-31" =
      Except.error ("项目 " ++ "示例项目" ++ " 时间线分配验证失败") :=
  c2_invalid_timeline_aborts "示例项目" cexInvalidProject ⟨[]⟩
    "2025-01-01" "2025-12-31"
    ⟨false, ["任务数量不匹配: 预期1个，实际分配0个", "以下任务未被分配时间: [1]"],
      [], 1, 0⟩
    (by decide) (by decide)

/-- C4: evaluating the timeline caller's cleanup on a response whose
string field contains a raw tab and a raw newline: the content passes
through unchanged, because the regex character class
`[\x00-\x08\x0B-\x0C\x0E-\x1F\x7F]` omits `\x09`, `\x0A` and `\x0D` —
contradicting both the claim and the code's own comment that unescaped
newlines and tabs are removed. -/
theorem c4_cleanup_keeps_tab_and_newline :
    extractTimelineJsonStr cexCtlJson = some cexCtlJson ∧
    '\t' ∈ cexCtlJson ∧ '\n' ∈ cexCtlJson ∧
    isStrippedCtl '\t' = false ∧ isStrippedCtl '\n' = false ∧
    isStrippedCtl '\r' = false := by
  decide

/-- C5 (counterexample): one batch covering a single requested employee
whose parsed response carries two assignments with distinct names merges
two entries into the aggregate map — more than the batch's N = 1. -/
theorem c5_counterexample :
    assignSkillsInBatches cexOverfullCaller [()] 20 =
      some [("B", [⟨some "Python", some "strong"⟩]),
            ("C", [⟨some "Go", some "medium"⟩])] ∧
    ([()] : List Unit).length = 1 := by
  decide

/-- C5 (amended): merging a parsed batch adds at most as many entries to
the aggregate map as the batch's `assignments` array has elements (a
same-name duplicate overwrites instead of adding). -/
theorem c5_merge_size_bound (acc : List (String × List HardSkill))
    (batch : List SkillAssignment) :
    (mergeSkillBatch acc batch).length ≤ acc.length + batch.length := by
  induction batch generalizing acc with
  | nil => simp [mergeSkillBatch]
  | cons a rest ih =>
    have h1 := dictInsert_length_le acc (a.name.getD "") (a.hard_skills.getD [])
    have h2 := ih (dictInsert acc (a.name.getD "") (a.hard_skills.getD []))
    simp only [mergeSkillBatch, List.foldl_cons, List.length_cons] at h2 ⊢
    omega

/-- C7 (counterexample): `validate_timeline` on a project whose subtask
record lacks the `subtask_id` key raises `KeyError` instead of returning
a diagnostics report. -/
theorem c7_counterexample :
    validateTimeline cexNoIdProject ⟨[]⟩ "2025-01-01" "2025-12-31" =
      Except.error "KeyError: subtask_id" := by
  decide

/-- C9 (counterexample): a bare JSON object containing a raw DEL
(`0x7F`) character — legal unescaped in a JSON string — is changed by
the timeline cleanup, so extraction does not return the JSON parse of the
original text. -/
theorem c9_counterexample :
    bareJsonShaped cexDelJson = true ∧
    cleanTimelineContent cexDelJson ≠ cexDelJson ∧
    extractTimelineJsonStr cexDelJson ≠ some cexDelJson := by
  decide

/-- C10 (counterexample): the skill name `"Go "` (trailing space, no
parenthesis and no `", "` substring) is written as `"Go (strong)"` and
parsed back as `"Go"`, so the round trip loses the name. -/
theorem c10_counterexample :
    (∀ p ∈ cexPaddedSkills, hasSep p.1 = false ∧ hasSep p.2 = false ∧
       p.1.contains '(' = false ∧ p.1.contains ')' = false ∧
       p.2.contains '(' = false ∧ p.2.contains ')' = false) ∧
    cexPaddedSkills ≠ [] ∧
    parse_hard_skills (skillCellValue cexPaddedSkills) ≠
      cexPaddedSkills.map (fun p => ⟨p.1, p.2⟩) := by
  decide

/-- C3 (counterexample): the communication-style orchestrator does not
abort when a batch fails — with a caller failing on batch 1 of 2, the
run still processes batch 2 and returns its (partial) merged map instead
of a failure. -/
theorem c3_counterexample :
    cexStyleCaller 1 = none ∧
    assignCommunicationStylesInBatches cexStyleCaller (List.replicate 12 ())
      communicationStyleUniverse 10 = [("张三", cexOkStyle)] := by
  decide

/-- C6 (counterexample): the phase-4 adjustment stores whatever
`adjusted_style` the model returned — here the out-of-vocabulary
lowercase `"formal"` replaces a valid vector and the member is kept with
it (the post-check only reports the violation). -/
theorem c6_counterexample :
    stage2Core [cexMember] (some cexBadAdjustments) = some [cexAdjustedMember] ∧
    (validateCommunicationStyle cexAdjustedMember.communication_style
      communicationStyleUniverse).1 = false ∧
    validateCommunicationStyles [cexAdjustedMember] = false := by
  decide

theorem collectSubtaskIds_map_phase (f : Option String → Option String)
    (sts : List Subtask) (acc : List Int) :
    collectSubtaskIds acc (sts.map (fun st => { st with phase := f st.phase })) =
      collectSubtaskIds acc sts := by
  induction sts generalizing acc with
  | nil => rfl
  | cons st rest ih =>
    obtain ⟨sid, ph, dl⟩ := st
    cases sid <;> simp [collectSubtaskIds, ih]

theorem collectMemberIds_setPhases (f : Option String → Option String)
    (members : List Member) (acc : List Int) :
    collectMemberIds acc (members.map (fun m =>
      { m with subtasks := m.subtasks.map (List.map
          (fun st => { st with phase := f st.phase })) })) =
      collectMemberIds acc members := by
  induction members generalizing acc with
  | nil => rfl
  | cons m rest ih =>
    obtain ⟨rk, sub⟩ := m
    cases sub with
    | none =>
      simp only [List.map_cons, collectMemberIds, memberSubtasks, Option.map_none',
        Option.getD_none]
      cases h : collectSubtaskIds acc [] <;> simp [h, ih]
    | some sts =>
      simp only [List.map_cons, collectMemberIds, memberSubtasks, Option.map_some',
        Option.getD_some]
      rw [collectSubtaskIds_map_phase]
      cases h : collectSubtaskIds acc sts <;> simp [h, ih]

theorem map_length_setPhases (f : Option String → Option String)
    (members : List Member) :
    (members.map (fun m =>
      { m with subtasks := m.subtasks.map (List.map
          (fun st => { st with phase := f st.phase })) })).map
        (fun m => (memberSubtasks m).length) =
      members.map (fun m => (memberSubtasks m).length) := by
  rw [List.map_map]
  apply List.map_congr_left
  intro m _
  obtain ⟨rk, sub⟩ := m
  cases sub <;> simp [memberSubtasks]

/-- C1 (amended): `validate_timeline` enforces no deadline/phase
ordering: its whole result is invariant under arbitrary rewriting of the
subtasks' phase labels, so no phase-ordered pair of subtasks is ever
reported as a violation. -/
theorem c1_no_phase_check (f : Option String → Option String)
    (pd : ProjectData) (tr : TimelineResult) (sd ed : String) :
    validateTimeline (setSubtaskPhases f pd) tr sd ed =
      validateTimeline pd tr sd ed := by
  obtain ⟨members⟩ := pd
  unfold validateTimeline setSubtaskPhases collectProjectIds
  rw [map_length_setPhases, collectMemberIds_setPhases]

theorem skillsLoop_failure (callGpt : Nat → Option SkillsResponse)
    (ns : List Nat) (acc : List (String × List HardSkill))
    (h : ∃ i ∈ ns, callGpt i = none) :
    skillsLoop callGpt ns acc = none := by
  induction ns generalizing acc with
  | nil => simp at h
  | cons n rest ih =>
    obtain ⟨i, hi, hnone⟩ := h
    cases hc : callGpt n with
    | none => simp [skillsLoop, hc]
    | some resp =>
      have hmem : i ∈ rest := by
        rcases List.mem_cons.mp hi with rfl | hmem
        · rw [hnone] at hc; cases hc
        · exact hmem
      cases hasg : resp.assignments with
      | none => simp [skillsLoop, hc, hasg]
      | some batch =>
        simp only [skillsLoop, hc, hasg]
        exact ih _ ⟨i, hmem, hnone⟩

/-- C3 (amended): the skill-assignment orchestrator returns `None` for
the whole run whenever any batch in its range fails (it never skips a
batch and continues), and the employee-generation orchestrator returns
`None` when its (positively sized) first batch fails; the
communication-style orchestrator, by contrast, skips failed batches
(see its counterexample). -/
theorem c3_abort_policies :
    (∀ {α : Type} (callGpt : Nat → Option SkillsResponse) (employees : List α)
        (batchSize : Nat),
      (∃ i ∈ List.range' 1 ((employees.length + batchSize - 1) / batchSize),
        callGpt i = none) →
      assignSkillsInBatches callGpt employees batchSize = none) ∧
    (∀ {β : Type} (callGpt : Nat → Option (EmployeesResponse β))
        (totalEmployees topLeaderCount teamLeaderCount batchSize : Nat),
      callGpt 1 = none →
      0 < (totalEmployees + batchSize - 1) / batchSize →
      (0 : Int) < (if (topLeaderCount : Int) + (teamLeaderCount : Int) +
            ((batchSize : Int) - 8) > (totalEmployees : Int)
          then (totalEmployees : Int)
          else (topLeaderCount : Int) + (teamLeaderCount : Int) +
            ((batchSize : Int) - 8)) →
      generateEmployeeDataInBatches callGpt totalEmployees topLeaderCount
        teamLeaderCount batchSize = none) := by
  constructor
  · intro α callGpt employees batchSize h
    exact skillsLoop_failure callGpt _ [] h
  · intro β callGpt totalEmployees topLeaderCount teamLeaderCount batchSize h1 h2 h3
    simp only [generateEmployeeDataInBatches]
    cases htb : (totalEmployees + batchSize - 1) / batchSize with
    | zero => rw [htb] at h2; exact absurd h2 (by omega)
    | succ k =>
      rw [List.range'_succ]
      simp only [employeesLoop, if_pos rfl, if_true]
      rw [if_neg (not_le.mpr h3), h1]

/-- C3 (witness): with callers that fail on every batch, the
skill-assignment run over 12 employees in batches of 10 and the
employee-generation run with the configured constants both return
`None`. -/
theorem c3_abort_policies_witness :
    assignSkillsInBatches cexFailingSkillsCaller (List.replicate 12 ()) 10 = none ∧
    generateEmployeeDataInBatches cexFailingEmployeesCaller 300 1 7 20 = none := by
  constructor
  · exact c3_abort_policies.1 cexFailingSkillsCaller (List.replicate 12 ()) 10
      ⟨1, by decide, rfl⟩
  · exact c3_abort_policies.2 cexFailingEmployeesCaller 300 1 7 20 rfl
      (by decide) (by decide)

theorem mergeStyleBatch_valid (univ : List StyleDimension)
    (acc : List (String × Style)) (batch : List StyleAssignment)
    (hacc : ∀ p ∈ acc, (validateCommunicationStyle p.2 univ).1 = true) :
    ∀ p ∈ mergeStyleBatch univ acc batch,
      (validateCommunicationStyle p.2 univ).1 = true := by
  induction batch generalizing acc with
  | nil => simpa [mergeStyleBatch] using hacc
  | cons a rest ih =>
    intro p hp
    simp only [mergeStyleBatch, List.foldl_cons] at hp
    refine ih _ ?_ p hp
    intro q hq
    by_cases hvalid :
        (validateCommunicationStyle (a.communication_style.getD []) univ).1 = true
    · rw [if_pos hvalid] at hq
      rcases mem_dictInsert hq with hq' | hq'
      · exact hacc q hq'
      · rw [hq']
        exact hvalid
    · rw [if_neg hvalid] at hq
      exact hacc q hq

theorem stylesLoop_valid (callGpt : Nat → Option StyleResponse)
    (univ : List StyleDimension) (ns : List Nat) (acc : List (String × Style))
    (hacc : ∀ p ∈ acc, (validateCommunicationStyle p.2 univ).1 = true) :
    ∀ p ∈ stylesLoop callGpt univ ns acc,
      (validateCommunicationStyle p.2 univ).1 = true := by
  induction ns generalizing acc with
  | nil => simpa [stylesLoop] using hacc
  | cons n rest ih =>
    cases hc : callGpt n with
    | none =>
      simpa [stylesLoop, hc] using ih acc hacc
    | some resp =>
      simpa [stylesLoop, hc] using
        ih _ (mergeStyleBatch_valid univ acc (resp.assignments.getD []) hacc)

/-- C6 (amended): every entry of the Phase-3 assignments map does carry
an 8-dimension vector drawn from the fixed vocabulary, because insertion
is gated on `validate_communication_style`; the claim fails only for the
Phase-4 adjustment (see the counterexample), which stores unvalidated
vectors. -/
theorem c6_phase3_map_vocabulary {α : Type}
    (callGpt : Nat → Option StyleResponse) (employees : List α)
    (batchSize : Nat) (p : String × Style)
    (hp : p ∈ assignCommunicationStylesInBatches callGpt employees
      communicationStyleUniverse batchSize) :
    (validateCommunicationStyle p.2 communicationStyleUniverse).1 = true := by
  exact stylesLoop_valid callGpt communicationStyleUniverse _ []
    (by simp) p hp

/-- C6 (witness): a concrete single-batch run ends with the valid vector
of `cexOkStyle` in the map, and the invariant theorem applies to it. -/
theorem c6_phase3_map_vocabulary_witness :
    (validateCommunicationStyle (("李四", cexOkStyle) : String × Style).2
      communicationStyleUniverse).1 = true :=
  c6_phase3_map_vocabulary cexOkStyleCaller [()] 1 ("李四", cexOkStyle)
    (by decide)

theorem dictLookup_foldl_adjust (batch : List StyleAdjustment)
    (m0 : List (Option String × Style)) (k : Option String)
    (hk : ∀ adj ∈ batch, adj.user_name ≠ k)
    (h0 : dictLookup m0 k = none) :
    dictLookup (batch.foldl
      (fun m adj => dictInsert m adj.user_name (adj.adjusted_style.getD [])) m0)
      k = none := by
  induction batch generalizing m0 with
  | nil => simpa using h0
  | cons adj rest ih =>
    simp only [List.foldl_cons]
    refine ih _ (fun a ha => hk a (List.mem_cons_of_mem _ ha)) ?_
    rw [dictLookup_dictInsert]
    rw [if_neg (fun hc => hk adj (List.mem_cons_self _ _) hc.symm)]
    exact h0

/-- C8: with members that carry no prior snapshot (as built by
`employee_row_to_dict`), the stage-2 snapshot followed by
`apply_style_adjustments` preserves, member by member: the name; the
snapshot `original_communication_style`, which equals the pre-adjustment
vector; and the `communication_style` itself for every member not named
in the adjustment result. -/
theorem c8_frame_preservation (team : List TeamMember)
    (adjustments : AdjustmentsResult)
    (h : ∀ m ∈ team, m.original_communication_style = none) :
    ∀ p ∈ team.zip (applyStyleAdjustments (snapshotOriginalStyles team)
      adjustments),
      p.2.user_name = p.1.user_name ∧
      p.2.original_communication_style = some p.1.communication_style ∧
      (some p.1.user_name ∉
          (adjustments.adjusted_styles.getD []).map StyleAdjustment.user_name →
        p.2.communication_style = p.1.communication_style) := by
  intro p hp
  have hteam : p.1 ∈ team := (List.of_mem_zip hp).1
  rw [show applyStyleAdjustments (snapshotOriginalStyles team) adjustments =
      team.map (fun m =>
        let m2 : TeamMember :=
          match m.original_communication_style with
          | none =>
            { m with original_communication_style := some m.communication_style }
          | some _ => m
        match dictLookup
            ((adjustments.adjusted_styles.getD []).foldl
              (fun acc adj =>
                dictInsert acc adj.user_name (adj.adjusted_style.getD [])) [])
            (some m2.user_name) with
        | some adjStyle => { m2 with communication_style := adjStyle }
        | none => m2)
      from by
        simp [applyStyleAdjustments, snapshotOriginalStyles, List.map_map]] at hp
  have hcomp := zip_map_mem hp
  rw [h p.1 hteam] at hcomp
  dsimp only at hcomp
  cases hlook : dictLookup
      ((adjustments.adjusted_styles.getD []).foldl
        (fun acc adj =>
          dictInsert acc adj.user_name (adj.adjusted_style.getD [])) [])
      (some p.1.user_name) with
  | none =>
    rw [hlook] at hcomp
    exact ⟨by rw [hcomp], by rw [hcomp], fun _ => by rw [hcomp]⟩
  | some adjStyle =>
    rw [hlook] at hcomp
    refine ⟨by rw [hcomp], by rw [hcomp], fun hnot => ?_⟩
    have : dictLookup
        ((adjustments.adjusted_styles.getD []).foldl
          (fun acc adj =>
            dictInsert acc adj.user_name (adj.adjusted_style.getD [])) [])
        (some p.1.user_name) = none := by
      refine dictLookup_foldl_adjust _ _ _ ?_ rfl
      intro adj hadj hc
      exact hnot (hc ▸ List.mem_map_of_mem StyleAdjustment.user_name hadj)
    rw [this] at hlook
    cases hlook

/-- C8 (witness): in a concrete two-member team where only 王五 is named
by the adjustment result, 赵六 keeps the prior vector and both members
keep the pre-adjustment snapshot. -/
theorem c8_frame_preservation_witness :
    cexZhaoAfter.user_name = cexZhao.user_name ∧
    cexZhaoAfter.original_communication_style = some cexZhao.communication_style ∧
    (some cexZhao.user_name ∉
        (cexPartialAdjustments.adjusted_styles.getD []).map
          StyleAdjustment.user_name →
      cexZhaoAfter.communication_style = cexZhao.communication_style) :=
  c8_frame_preservation cexTwoMemberTeam cexPartialAdjustments (by decide)
    (cexZhao, cexZhaoAfter) (by decide)

theorem collectSubtaskIds_total (sts : List Subtask) (acc : List Int)
    (h : ∀ st ∈ sts, st.subtask_id.isSome = true) :
    ∃ ids, collectSubtaskIds acc sts = Except.ok ids := by
  induction sts generalizing acc with
  | nil => exact ⟨acc, rfl⟩
  | cons st rest ih =>
    have hst := h st (List.mem_cons_self _ _)
    cases hid : st.subtask_id with
    | none => rw [hid] at hst; cases hst
    | some i =>
      simp only [collectSubtaskIds, hid]
      exact ih _ (fun st2 h2 => h st2 (List.mem_cons_of_mem _ h2))

theorem collectMemberIds_total (members : List Member) (acc : List Int)
    (h : ∀ m ∈ members, ∀ st ∈ memberSubtasks m, st.subtask_id.isSome = true) :
    ∃ ids, collectMemberIds acc members = Except.ok ids := by
  induction members generalizing acc with
  | nil => exact ⟨acc, rfl⟩
  | cons m rest ih =>
    obtain ⟨ids1, h1⟩ := collectSubtaskIds_total (memberSubtasks m) acc
      (h m (List.mem_cons_self _ _))
    simp only [collectMemberIds, h1]
    exact ih _ (fun m2 h2 => h m2 (List.mem_cons_of_mem _ h2))

theorem mapExcept_total {α β : Type} (f : α → Except String β) (l : List α)
    (h : ∀ a ∈ l, ∃ b, f a = Except.ok b) :
    ∃ bs, mapExcept f l = Except.ok bs := by
  induction l with
  | nil => exact ⟨[], rfl⟩
  | cons a rest ih =>
    obtain ⟨b, hb⟩ := h a (List.mem_cons_self _ _)
    obtain ⟨bs, hbs⟩ := ih (fun a2 h2 => h a2 (List.mem_cons_of_mem _ h2))
    exact ⟨b :: bs, by simp [mapExcept, hb, hbs]⟩

/-- C7 (amended): `validate_skill_assignments` always returns a
pass/fail flag plus a diagnostics list; `validate_timeline` returns a
report (never raises) whenever every project subtask record carries
`subtask_id`; and `validate_task_assignments` returns a flag whenever
every team member carries `user_name` and `hard_skills` and every skill
record carries `skill`. -/
theorem c7_validator_totality :
    (∀ (employees : List SkillEmployee) (skillUniverse : List String),
      ∃ passed errs,
        validateSkillAssignments employees skillUniverse = (passed, errs)) ∧
    (∀ (pd : ProjectData) (tr : TimelineResult) (sd ed : String),
      (∀ m ∈ pd.members, ∀ st ∈ memberSubtasks m, st.subtask_id.isSome = true) →
      (validateTimeline pd tr sd ed).isOk = true) ∧
    (∀ (assignments : List TaskAssignment) (team : List TaskTeamMember),
      (∀ m ∈ team, m.user_name.isSome = true ∧ m.hard_skills.isSome = true ∧
        ∀ s ∈ m.hard_skills.getD [], s.skill.isSome = true) →
      ∃ b, validateTaskAssignments assignments team = Except.ok b) := by
  refine ⟨fun employees skillUniverse => ⟨_, _, rfl⟩, ?_, ?_⟩
  · intro pd tr sd ed h
    obtain ⟨ids, hids⟩ := collectMemberIds_total pd.members [] h
    simp only [validateTimeline, collectProjectIds, hids]
    rfl
  · intro assignments team h
    have hn : ∀ m ∈ team, ∃ b, taskMemberName m = Except.ok b := by
      intro m hm
      cases hu : m.user_name with
      | none => have := (h m hm).1; rw [hu] at this; cases this
      | some n => exact ⟨n, by simp [taskMemberName, hu]⟩
    obtain ⟨names, hnames⟩ := mapExcept_total taskMemberName team hn
    have hs : ∀ m ∈ team, ∃ b, taskMemberSkills m = Except.ok b := by
      intro m hm
      obtain ⟨hu, hh, hsk⟩ := h m hm
      cases hun : m.user_name with
      | none => rw [hun] at hu; cases hu
      | some n =>
        cases hhs : m.hard_skills with
        | none => rw [hhs] at hh; cases hh
        | some skills =>
          have hmap : ∀ s ∈ skills, ∃ v,
              (match s.skill with
                | none => (Except.error "KeyError: skill" : Except String String)
                | some sk => Except.ok sk) = Except.ok v := by
            intro s hsmem
            have := hsk s (by simp only [hhs, Option.getD_some]; exact hsmem)
            cases hss : s.skill with
            | none => rw [hss] at this; cases this
            | some v => exact ⟨v, by simp [hss]⟩
          obtain ⟨vs, hvs⟩ := mapExcept_total _ skills hmap
          exact ⟨vs, by simp [taskMemberSkills, hun, hhs, hvs]⟩
    obtain ⟨skillLists, hskills⟩ := mapExcept_total taskMemberSkills team hs
    cases hfinal : validateTaskAssignments assignments team with
    | error e => simp [validateTaskAssignments, hnames, hskills] at hfinal
    | ok b => exact ⟨b, rfl⟩

/-- C7 (witness): the three validators at concrete well-formed inputs
all return results. -/
theorem c7_validator_totality_witness :
    (∃ passed errs,
      validateSkillAssignments [] ["Python"] = (passed, errs)) ∧
    (validateTimeline cexPhaseProject cexPhaseTimeline
      "2025-01-01" "2025-12-31").isOk = true ∧
    (∃ b, validateTaskAssignments []
      [⟨some "A", some [⟨some "Python", some "strong"⟩]⟩] = Except.ok b) :=
  ⟨c7_validator_totality.1 [] ["Python"],
   c7_validator_totality.2.1 cexPhaseProject cexPhaseTimeline
     "2025-01-01" "2025-12-31" (by decide),
   c7_validator_totality.2.2 []
     [⟨some "A", some [⟨some "Python", some "strong"⟩]⟩] (by decide)⟩

theorem dropWhile_eq_self_of_head (p : Char → Bool) (l : List Char)
    (h : ∀ a, l.head? = some a → p a = false) : l.dropWhile p = l := by
  cases l with
  | nil => rfl
  | cons a t => simp [List.dropWhile_cons, h a rfl]

theorem pyStrip_eq_self (l : List Char)
    (h1 : ∀ a, l.head? = some a → pyWhitespace a = false)
    (h2 : ∀ a, l.getLast? = some a → pyWhitespace a = false) :
    pyStrip l = l := by
  unfold pyStrip
  rw [dropWhile_eq_self_of_head _ _ h1]
  rw [dropWhile_eq_self_of_head _ _
    (fun a ha => h2 a (by rw [← List.head?_reverse]; exact ha))]
  exact List.reverse_reverse l

/-- C9 (amended): on a text that is already a bare JSON object (leading
`{`, trailing `}`) containing none of the stripped control characters,
the phase-1 cleanup and the timeline cleanup both leave the text
unchanged, so either extraction returns exactly the JSON parse of the
text (and extraction is idempotent on it). -/
theorem c9_clean_extraction_identity (x : List Char)
    (hbare : bareJsonShaped x = true)
    (hctl : ∀ c ∈ x, isStrippedCtl c = false) :
    cleanBasicContent x = x ∧
    extractTimelineJsonStr x = some x ∧
    (∀ (J : Type) (parse : List Char → Option J),
      extractBasicResult parse x = parse x ∧
      extractTimelineResult parse x = parse x) := by
  cases x with
  | nil => simp [bareJsonShaped] at hbare
  | cons c rest =>
    cases hgl : rest.getLast? with
    | none => rw [bareJsonShaped, hgl] at hbare; simp at hbare
    | some d =>
      rw [bareJsonShaped, hgl] at hbare
      simp only [Bool.and_eq_true, beq_iff_eq] at hbare
      obtain ⟨hc, hd⟩ := hbare
      subst hc
      subst hd
      cases rest with
      | nil => cases hgl
      | cons r0 rtail =>
        have hlastx : ('{' :: r0 :: rtail).getLast? = some '}' := by
          rw [List.getLast?_cons_cons]
          exact hgl
        have hstrip : pyStrip ('{' :: r0 :: rtail) = '{' :: r0 :: rtail := by
          refine pyStrip_eq_self _ (fun a ha => ?_) (fun a ha => ?_)
          · simp only [List.head?_cons, Option.some.injEq] at ha
            rw [← ha]
            rfl
          · rw [hlastx] at ha
            simp only [Option.some.injEq] at ha
            rw [← ha]
            rfl
        have hrev : ∃ t, ('{' :: r0 :: rtail).reverse = '}' :: t := by
          cases hr : ('{' :: r0 :: rtail).reverse with
          | nil => simp at hr
          | cons e t =>
            have he : ('{' :: r0 :: rtail).getLast? = some e := by
              rw [← List.head?_reverse, hr]
              rfl
            rw [hlastx] at he
            simp only [Option.some.injEq] at he
            subst he
            exact ⟨t, rfl⟩
        obtain ⟨t, ht⟩ := hrev
        have hp1 : List.isPrefixOf ("```json".data) ('{' :: r0 :: rtail) = false := rfl
        have hp2 : List.isPrefixOf ("```".data) ('{' :: r0 :: rtail) = false := rfl
        have hsuf : List.isSuffixOf ("```".data) ('{' :: r0 :: rtail) = false := by
          rw [List.isSuffixOf, ht]
          rfl
        have hfence : stripFences ('{' :: r0 :: rtail) = '{' :: r0 :: rtail := by
          rw [stripFences]
          simp only [hp1, hp2, hsuf, Bool.false_eq_true, if_false]
          exact hstrip
        have hfilter : ('{' :: r0 :: rtail).filter (fun c => !isStrippedCtl c) =
            '{' :: r0 :: rtail := by
          refine List.filter_eq_self.mpr (fun a ha => ?_)
          rw [hctl a ha]
          rfl
        have hclean : cleanTimelineContent ('{' :: r0 :: rtail) =
            '{' :: r0 :: rtail := by
          rw [cleanTimelineContent, hstrip, hfence, hfilter]
        have hcleanB : cleanBasicContent ('{' :: r0 :: rtail) =
            '{' :: r0 :: rtail := by
          rw [cleanBasicContent, hstrip, hfence]
        have hfind : pyFind ('{' :: r0 :: rtail) '{' = some 0 := by
          simp [pyFind, List.indexOf_cons_self]
        have hrfind : pyRFind ('{' :: r0 :: rtail) '}' =
            some (('{' :: r0 :: rtail).length - 1) := by
          rw [pyRFind, pyFind, ht]
          simp [List.indexOf_cons_self]
        have hextract : extractTimelineJsonStr ('{' :: r0 :: rtail) =
            some ('{' :: r0 :: rtail) := by
          rw [extractTimelineJsonStr, hclean, hfind, hrfind]
          have hlen : ('{' :: r0 :: rtail).length = rtail.length + 2 := by simp
          dsimp only
          rw [if_neg (by omega)]
          rw [List.drop_zero]
          have : ('{' :: r0 :: rtail).length - 1 + 1 - 0 =
              ('{' :: r0 :: rtail).length := by omega
          rw [this, List.take_length]
        refine ⟨hcleanB, hextract, fun J parse => ⟨?_, ?_⟩⟩
        · rw [extractBasicResult, hcleanB]
        · rw [extractTimelineResult, hextract]
          rfl

/-- C9 (witness): a concrete clean bare JSON object passes through both
cleanups unchanged. -/
theorem c9_clean_extraction_identity_witness :
    cleanBasicContent cexCleanJson = cexCleanJson ∧
    extractTimelineJsonStr cexCleanJson = some cexCleanJson :=
  ⟨(c9_clean_extraction_identity cexCleanJson (by decide) (by decide)).1,
   (c9_clean_extraction_identity cexCleanJson (by decide) (by decide)).2.1⟩

theorem hasSep_cons_of_ne (a : Char) (ha : a ≠ ',') (l : List Char) :
    hasSep (a :: l) = hasSep l := by
  cases l with
  | nil => rfl
  | cons b r => simp [hasSep, ha]

theorem hasSep_append_single (l : List Char) (c : Char) (hc : c ≠ ' ') :
    hasSep (l ++ [c]) = hasSep l := by
  induction l with
  | nil => simp [hasSep]
  | cons a l ih =>
    cases l with
    | nil => simp [hasSep, hc]
    | cons b r =>
      show ((a == ',' && b == ' ') || hasSep ((b :: r) ++ [c])) =
        ((a == ',' && b == ' ') || hasSep (b :: r))
      rw [ih]

theorem hasSep_append_cons (s : List Char) (d : Char) (hd : d ≠ ' ')
    (y : List Char) (hs : hasSep s = false) :
    hasSep (s ++ d :: y) = hasSep (d :: y) := by
  induction s with
  | nil => simp
  | cons a s ih =>
    cases s with
    | nil => simp [hasSep, hd]
    | cons b r =>
      simp only [hasSep, Bool.or_eq_false_iff] at hs
      show ((a == ',' && b == ' ') || hasSep ((b :: r) ++ d :: y)) =
        hasSep (d :: y)
      rw [ih hs.2, hs.1]
      simp

theorem hasSep_skillItemStr (s l : List Char)
    (hs : hasSep s = false) (hl : hasSep l = false) :
    hasSep (skillItemStr (s, l)) = false := by
  unfold skillItemStr
  rw [hasSep_append_cons s '(' (by decide) _ hs]
  rw [hasSep_cons_of_ne '(' (by decide)]
  rw [hasSep_append_single l ')' (by decide)]
  exact hl

theorem splitSep_no_sep (item : List Char) (h : hasSep item = false) :
    splitSep item = [item] := by
  induction item with
  | nil => rfl
  | cons a l ih =>
    cases l with
    | nil => rfl
    | cons b r =>
      simp only [hasSep, Bool.or_eq_false_iff, Bool.and_eq_false_iff,
        beq_eq_false_iff_ne] at h
      have h1 : ¬(a = ',' ∧ b = ' ') := by
        rcases h.1 with hne | hne
        · exact fun hc => hne hc.1
        · exact fun hc => hne hc.2
      have h2 : hasSep (b :: r) = false := by
        have := h.2
        simpa [hasSep, Bool.or_eq_false_iff, Bool.and_eq_false_iff,
          beq_eq_false_iff_ne] using this
      show (if a = ',' ∧ b = ' ' then [] :: splitSep r
            else
              match splitSep (b :: r) with
              | [] => [[a]]
              | hh :: tt => (a :: hh) :: tt) = [a :: b :: r]
      rw [if_neg h1, ih h2]

theorem splitSep_append_sep (item tail : List Char) (h : hasSep item = false) :
    splitSep (item ++ ',' :: ' ' :: tail) = item :: splitSep tail := by
  induction item with
  | nil =>
    show (if (',' : Char) = ',' ∧ (' ' : Char) = ' ' then [] :: splitSep tail
          else
            match splitSep (' ' :: tail) with
            | [] => [[(',' : Char)]]
            | hh :: tt => (',' :: hh) :: tt) = [] :: splitSep tail
    rw [if_pos ⟨rfl, rfl⟩]
  | cons a l ih =>
    cases l with
    | nil =>
      show (if a = ',' ∧ (',' : Char) = ' ' then [] :: splitSep (' ' :: tail)
            else
              match splitSep (',' :: ' ' :: tail) with
              | [] => [[a]]
              | hh :: tt => (a :: hh) :: tt) = [a] :: splitSep tail
      rw [if_neg (by simp)]
      rw [show splitSep (',' :: ' ' :: tail) = [] :: splitSep tail from by
        show (if (',' : Char) = ',' ∧ (' ' : Char) = ' ' then [] :: splitSep tail
              else
                match splitSep (' ' :: tail) with
                | [] => [[(',' : Char)]]
                | hh :: tt => (',' :: hh) :: tt) = [] :: splitSep tail
        rw [if_pos ⟨rfl, rfl⟩]]
    | cons b r =>
      simp only [hasSep, Bool.or_eq_false_iff, Bool.and_eq_false_iff,
        beq_eq_false_iff_ne] at h
      have h1 : ¬(a = ',' ∧ b = ' ') := by
        rcases h.1 with hne | hne
        · exact fun hc => hne hc.1
        · exact fun hc => hne hc.2
      have h2 : hasSep (b :: r) = false := by
        have := h.2
        simpa [hasSep, Bool.or_eq_false_iff, Bool.and_eq_false_iff,
          beq_eq_false_iff_ne] using this
      show (if a = ',' ∧ b = ' ' then
              [] :: splitSep (r ++ ',' :: ' ' :: tail)
            else
              match splitSep ((b :: r) ++ ',' :: ' ' :: tail) with
              | [] => [[a]]
              | hh :: tt => (a :: hh) :: tt) = (a :: b :: r) :: splitSep tail
      rw [if_neg h1, ih h2]

theorem joinSep_cons_cons (x y : List Char) (r : List (List Char)) :
    joinSep (x :: y :: r) = x ++ ',' :: ' ' :: joinSep (y :: r) := rfl

theorem splitSep_joinSep (items : List (List Char)) (hne : items ≠ [])
    (h : ∀ i ∈ items, hasSep i = false) :
    splitSep (joinSep items) = items := by
  induction items with
  | nil => exact absurd rfl hne
  | cons x rest ih =>
    cases rest with
    | nil => exact splitSep_no_sep x (h x (List.mem_cons_self _ _))
    | cons y r =>
      rw [joinSep_cons_cons]
      rw [splitSep_append_sep x _ (h x (List.mem_cons_self _ _))]
      rw [ih (by simp) (fun i hi => h i (List.mem_cons_of_mem _ hi))]

theorem indexOf_append_cons_self (c : Char) (s y : List Char) (hc : c ∉ s) :
    List.indexOf c (s ++ c :: y) = s.length := by
  induction s with
  | nil => simp [List.indexOf_cons_self]
  | cons a s ih =>
    have ha : a ≠ c := fun hac => hc (hac ▸ List.mem_cons_self a s)
    have hcs : c ∉ s := fun hmem => hc (List.mem_cons_of_mem _ hmem)
    simp only [List.cons_append, List.length_cons]
    rw [List.indexOf_cons_ne _ ha, ih hcs]

theorem drop_append_cons (s : List Char) (d : Char) (y : List Char) :
    (s ++ d :: y).drop (s.length + 1) = y := by
  rw [show s ++ d :: y = (s ++ [d]) ++ y from by simp]
  rw [show s.length + 1 = (s ++ [d]).length from by simp]
  exact List.drop_left _ _

theorem parseSkillItem_skillItemStr (s l : List Char)
    (h1 : '(' ∉ s) (h2 : ')' ∉ s) (h3 : ')' ∉ l)
    (h4 : pyStrip s = s) (h5 : pyStrip l = l) :
    parseSkillItem (skillItemStr (s, l)) = some ⟨s, l⟩ := by
  have hopen : '(' ∈ skillItemStr (s, l) := by
    unfold skillItemStr
    exact List.mem_append_right _ (List.mem_cons_self _ _)
  have hclose : ')' ∈ skillItemStr (s, l) := by
    unfold skillItemStr
    refine List.mem_append_right _ (List.mem_cons_of_mem _ ?_)
    exact List.mem_append_right _ (List.mem_cons_self _ _)
  have hidxOpen : List.indexOf '(' (skillItemStr (s, l)) = s.length :=
    indexOf_append_cons_self '(' s _ h1
  have hidxClose : List.indexOf ')' (skillItemStr (s, l)) =
      s.length + 1 + l.length := by
    have hnotin : ')' ∉ s ++ '(' :: l := by
      intro hmem
      rcases List.mem_append.mp hmem with hmem | hmem
      · exact h2 hmem
      · rcases List.mem_cons.mp hmem with hmem | hmem
        · cases hmem
        · exact h3 hmem
    have hshape : skillItemStr (s, l) = (s ++ '(' :: l) ++ ')' :: [] := by
      unfold skillItemStr
      simp
    rw [hshape, indexOf_append_cons_self ')' _ _ hnotin]
    simp only [List.length_append, List.length_cons]
    omega
  unfold parseSkillItem
  rw [if_pos ⟨hopen, hclose⟩, hidxOpen, hidxClose]
  dsimp only
  have htake : (skillItemStr (s, l)).take s.length = s := by
    unfold skillItemStr
    exact List.take_left _ _
  have hdrop : (skillItemStr (s, l)).drop (s.length + 1) = l ++ [')'] := by
    unfold skillItemStr
    exact drop_append_cons s '(' _
  rw [htake, hdrop]
  have harith : s.length + 1 + l.length - (s.length + 1) = l.length := by omega
  rw [harith, List.take_left _ _, h4, h5]

theorem skillItemStr_ne_nil (p : List Char × List Char) :
    skillItemStr p ≠ [] := by
  unfold skillItemStr
  simp

theorem joinSep_ne_nil (x : List Char) (r : List (List Char)) (hx : x ≠ []) :
    joinSep (x :: r) ≠ [] := by
  cases r with
  | nil => exact hx
  | cons y t =>
    rw [joinSep_cons_cons]
    simp

theorem filterMap_parse_map (skills : List (List Char × List Char))
    (h : ∀ p ∈ skills, '(' ∉ p.1 ∧ ')' ∉ p.1 ∧ ')' ∉ p.2 ∧
      pyStrip p.1 = p.1 ∧ pyStrip p.2 = p.2) :
    (skills.map skillItemStr).filterMap parseSkillItem =
      skills.map (fun p => ⟨p.1, p.2⟩) := by
  induction skills with
  | nil => rfl
  | cons q qs ih =>
    obtain ⟨hq1, hq2, hq3, hq4, hq5⟩ := h q (List.mem_cons_self _ _)
    simp only [List.map_cons, List.filterMap_cons]
    rw [parseSkillItem_skillItemStr q.1 q.2 hq1 hq2 hq3 hq4 hq5]
    rw [ih (fun p hp => h p (List.mem_cons_of_mem _ hp))]

/-- C10 (amended): for every non-empty skill list whose names and levels
contain no `(`, `)` or `", "` substring and carry no leading or trailing
whitespace, parsing the comma-joined `"Skill(level)"` cell written by the
Phase-2 Excel writer returns the same pairs, with each level under the
`proficiency` key. -/
theorem c10_round_trip (skills : List (List Char × List Char))
    (hne : skills ≠ [])
    (h : ∀ p ∈ skills,
      hasSep p.1 = false ∧ hasSep p.2 = false ∧
      '(' ∉ p.1 ∧ ')' ∉ p.1 ∧ '(' ∉ p.2 ∧ ')' ∉ p.2 ∧
      pyStrip p.1 = p.1 ∧ pyStrip p.2 = p.2) :
    parse_hard_skills (skillCellValue skills) =
      skills.map (fun p => ⟨p.1, p.2⟩) := by
  have hcell : skillCellValue skills = joinSep (skills.map skillItemStr) := by
    unfold skillCellValue
    rw [if_neg hne]
  obtain ⟨p0, rest0, rfl⟩ : ∃ p0 rest0, skills = p0 :: rest0 := by
    cases skills with
    | nil => exact absurd rfl hne
    | cons p0 rest0 => exact ⟨p0, rest0, rfl⟩
  have hcellne : joinSep ((p0 :: rest0).map skillItemStr) ≠ [] := by
    rw [List.map_cons]
    exact joinSep_ne_nil _ _ (skillItemStr_ne_nil p0)
  rw [parse_hard_skills, hcell, if_neg hcellne]
  rw [splitSep_joinSep _ (by simp) (fun i hi => by
    obtain ⟨p, hp, rfl⟩ := List.mem_map.mp hi
    obtain ⟨hs1, hs2, _⟩ := h p hp
    exact hasSep_skillItemStr p.1 p.2 hs1 hs2)]
  exact filterMap_parse_map (p0 :: rest0) (fun p hp => by
    obtain ⟨_, _, h3, h4, _, h6, h7, h8⟩ := h p hp
    exact ⟨h3, h4, h6, h7, h8⟩)

/-- C10 (witness): the round trip holds at a concrete two-skill list. -/
theorem c10_round_trip_witness :
    parse_hard_skills (skillCellValue cexGoodSkills) =
      cexGoodSkills.map (fun p => ⟨p.1, p.2⟩) :=
  c10_round_trip cexGoodSkills (by decide) (by decide)

end EverMemBench
